import Mathlib

/-!
Shallow embedding of the MRDF multi-profile editor core
(source: src/mrdf_multi_editorV0.1.py).

Byte buffers (`bytes` / `bytearray`) are modelled as `List Nat`, each entry a
byte in `[0, 256)`; all bytes produced by the embedded code are `< 256` by
construction.  Machine words are plain `Nat` with explicit `% 2 ^ w` where the
source masks.  Python `struct` little-endian packing/unpacking is modelled by
`pack_le` / `unpack_le`.  IEEE-754 binary32 values (the result of unpacking
`"<f"`) are modelled by `F32Val`: a finite rational, a signed infinity, or NaN.
Fallible Python code (raising exceptions) is modelled with `Except` / `Option`.
-/

namespace Mrdf

/-! ## Definitions -/

/-- Little-endian packing: `pack_le w n` is the `n`-byte little-endian
encoding of `w % 256 ^ n` (the low `n` bytes of `w`), as Python
`struct.pack` produces for in-range arguments. -/
def pack_le : Nat → Nat → List Nat
  | _, 0 => []
  | w, n + 1 => (w % 256) :: pack_le (w / 256) n

/-- Little-endian unpacking of a byte list into a natural number, as Python
`struct.unpack` reassembles a little-endian field. -/
def unpack_le : List Nat → Nat
  | [] => 0
  | b :: bs => b + 256 * unpack_le bs

/-- Python `bytearray` slice assignment `buf[i:i+n] = xs` (indices are clamped
to the buffer length, and the addressed slice is replaced by `xs`; when
`len(xs)` differs from the addressed slice's length the buffer's length
changes, exactly as in Python). -/
def setSlice (buf : List Nat) (i n : Nat) (xs : List Nat) : List Nat :=
  buf.take (min i buf.length) ++ xs ++ buf.drop (min (i + n) buf.length)

/-- The value of an IEEE-754 binary32 word as seen by Python after
`struct.unpack("<f", ...)` (the binary32 value widened to a Python float):
a finite rational, a signed infinity (`sign = true` for negative), or NaN. -/
inductive F32Val
  | finite (q : ℚ)
  | inf (sign : Bool)
  | nan

deriving DecidableEq, Repr

/-- Decode a 32-bit word (sign / biased exponent / mantissa fields) into the
binary32 value it represents: `(-1)^s * (2^23 + m) * 2^(e - 150)` for a
normal value, `(-1)^s * m * 2^(-149)` for a subnormal (the rational is built
with `mkRat` so that it evaluates by kernel reduction). -/
def f32ValOfBits (w : Nat) : F32Val :=
  let s : Nat := w / 2 ^ 31 % 2
  let e : Nat := w / 2 ^ 23 % 2 ^ 8
  let m : Nat := w % 2 ^ 23
  if e = 255 then
    if m = 0 then .inf (s = 1) else .nan
  else
    let mag : ℚ :=
      if e = 0 then mkRat m (2 ^ 149)
      else if 150 ≤ e then mkRat ((2 ^ 23 + m) * 2 ^ (e - 150)) 1
      else mkRat (2 ^ 23 + m) (2 ^ (150 - e))
    .finite (if s = 1 then -mag else mag)

/-- Round a rational to the nearest integer, ties to even
(the rounding mode used by C float conversion, hence by `struct.pack("<f", ...)`). -/
def roundHalfEven (q : ℚ) : ℤ :=
  let f := ⌊q⌋
  let r := q - (f : ℚ)
  if r < 1 / 2 then f
  else if 1 / 2 < r then f + 1
  else if f % 2 = 0 then f else f + 1

/-- `⌊log₂ a⌋` for a positive rational, computed from the bit lengths of the
numerator and denominator and corrected by direct comparison. -/
def qilog2 (a : ℚ) : ℤ :=
  let l : ℤ := (Nat.log2 a.num.natAbs : ℤ) - (Nat.log2 a.den : ℤ)
  if a < (2 : ℚ) ^ l then l - 1
  else if (2 : ℚ) ^ (l + 1) ≤ a then l + 1
  else l

/-- Field assembly for `roundF32`: sign `s`, adjusted binary exponent `e`,
rounded significand `n` (already scaled so that a normal value has
`2 ^ 23 ≤ n < 2 ^ 24`; a subnormal has `n < 2 ^ 23` and `e = -126`). -/
def roundF32aux (s : Nat) (e n : ℤ) : Option Nat :=
  if 127 < e then none
  else if n < 2 ^ 23 then some (s * 2 ^ 31 + n.toNat % 2 ^ 23)
  else
    some (s * 2 ^ 31 + (e + 127).toNat % 2 ^ 8 * 2 ^ 23 + (n.toNat - 2 ^ 23) % 2 ^ 23)

/-- Convert a finite rational (a Python float value) to the nearest IEEE-754
binary32 bit pattern, rounding to nearest, ties to even.  Returns `none` when
the magnitude overflows binary32, in which case `struct.pack("<f", ...)`
raises `OverflowError`.  This models the C `double -> float` conversion
performed by `struct.pack("<f", float(v))`. -/
def roundF32 (q : ℚ) : Option Nat :=
  if q = 0 then some 0
  else
    let s : Nat := if q < 0 then 1 else 0
    let a := |q|
    let e : ℤ := max (qilog2 a) (-126)
    let n : ℤ := roundHalfEven (a * (2 : ℚ) ^ (23 - e))
    if 2 ^ 24 ≤ n then roundF32aux s (e + 1) (2 ^ 23) else roundF32aux s e n

/-- Python `<` on two unpacked float values (NaN compares false with
everything). -/
def F32Val.flt : F32Val → F32Val → Bool
  | .nan, _ => false
  | _, .nan => false
  | .finite a, .finite b => decide (a < b)
  | .finite _, .inf s => !s
  | .inf s, .finite _ => s
  | .inf s, .inf t => s && !t

/-- Python `<=` on two unpacked float values (NaN compares false with
everything). -/
def F32Val.fle : F32Val → F32Val → Bool
  | .nan, _ => false
  | _, .nan => false
  | .finite a, .finite b => decide (a ≤ b)
  | .finite _, .inf s => !s
  | .inf s, .finite _ => s
  | .inf s, .inf t => (s && !t) || (s == t)

/-- The scalar kinds of the `_FMT` table (`Scalar = Literal["float", "int32",
"uint32", "bool32", "uint8"]`). -/
inductive Scalar
  | float
  | int32
  | uint32
  | bool32
  | uint8

deriving DecidableEq, Repr

/-- The byte widths from the `_FMT` table: 4 for the 32-bit kinds, 1 for
`uint8`. -/
def fmtWidth : Scalar → Nat
  | .float => 4
  | .int32 => 4
  | .uint32 => 4
  | .bool32 => 4
  | .uint8 => 1

/-- A Python value flowing through the codec: an `int`, or a `float`
(a finite rational, an infinity, or NaN; finite doubles are rationals —
the embedding treats Python floats as exact rationals). -/
inductive PyVal
  | int (z : ℤ)
  | float (x : F32Val)

deriving DecidableEq, Repr

/-- Python `int(v)` on a codec value: the identity on ints, truncation toward
zero on finite floats; raises (`none`) on an infinity or NaN. -/
def pyInt : PyVal → Option ℤ
  | .int z => some z
  | .float (.finite q) => some (q.num / (q.den : ℤ))
  | .float (.inf _) => none
  | .float .nan => none

/-- Python `float(v)` on a codec value: ints convert to their (modelled as
exact) float value, floats pass through. -/
def pyFloat : PyVal → F32Val
  | .int z => .finite (z : ℚ)
  | .float x => x

deriving instance DecidableEq for Except

/-- The ways the embedded codec can fail: the explicit bounds `ValueError`
raised by `read_scalar` / `write_scalar`, the `struct.error` raised by
`struct.pack` when an argument is out of the format's range, the
`OverflowError` raised when packing a float too large for binary32, and the
error raised by `int(v)` on a non-finite float. -/
inductive CodecErr
  | outOfBounds
  | structRange
  | overflow
  | convError

deriving DecidableEq, Repr

/-- The value `struct.unpack_from(fmt, ...)` produces from the little-endian
word `w` of a field, composed with the `bool32` post-normalization of
`read_scalar` (`1 if int(v) != 0 else 0`).  `"<i"` reads the word as
two's-complement. -/
def decodeWord (scalar : Scalar) (w : Nat) : PyVal :=
  match scalar with
  | .float => .float (f32ValOfBits w)
  | .int32 => .int (if w < 2 ^ 31 then (w : ℤ) else (w : ℤ) - 2 ^ 32)
  | .uint32 => .int w
  | .bool32 => .int (if w ≠ 0 then 1 else 0)
  | .uint8 => .int w

/-- `read_scalar(blob, off, scalar)`: bounds check, then little-endian
unpack; `bool32` normalizes any nonzero word to 1.  Returns the decoded
value and the raw byte slice. -/
def read_scalar (blob : List Nat) (off : ℤ) (scalar : Scalar) : Except CodecErr (PyVal × List Nat) :=
  let n := fmtWidth scalar
  if off < 0 ∨ (blob.length : ℤ) < off + n then .error .outOfBounds
  else
    let raw := (blob.drop off.toNat).take n
    .ok (decodeWord scalar (unpack_le raw), raw)

/-- The word a 32-bit integer kind sends to `struct.pack`:
`iv = 1 if iv else 0` for `bool32`, then `iv & 0xFFFFFFFF`. -/
def maskedWord (k : Scalar) (z : ℤ) : Nat :=
  ((if k = .bool32 then (if z ≠ 0 then (1 : ℤ) else 0) else z).emod (2 ^ 32)).toNat

/-- The `struct.pack` step shared by the three 32-bit integer kinds
(the `else` arm of `write_scalar`): normalize/mask per `maskedWord`, then
pack, with the `"<i"` format's range check for `int32`. -/
def packIntKind (k : Scalar) (v : PyVal) : Except CodecErr (List Nat) :=
  match pyInt v with
  | some z =>
    if k = .int32 ∧ 2 ^ 31 ≤ maskedWord k z then .error .structRange
    else .ok (pack_le (maskedWord k z) 4)
  | none => .error .convError

/-- The packed-bytes computation of `write_scalar`, split by scalar kind. -/
def packScalar (scalar : Scalar) (v : PyVal) : Except CodecErr (List Nat) :=
  match scalar with
  | .float =>
    match pyFloat v with
    | .finite q =>
      match roundF32 q with
      | some w => .ok (pack_le w 4)
      | none => .error .overflow
    | .inf s => .ok (pack_le (if s then 0xFF800000 else 0x7F800000) 4)
    | .nan => .ok (pack_le 0x7FC00000 4)
  | .uint8 =>
    match pyInt v with
    | some z => .ok (pack_le (z.emod 256).toNat 1)
    | none => .error .convError
  | .int32 => packIntKind .int32 v
  | .uint32 => packIntKind .uint32 v
  | .bool32 => packIntKind .bool32 v

/-- `write_scalar(buf, off, scalar, v)`: bounds check, then pack and splice.
`float` packs `float(v)` as binary32; `uint8` packs `int(v) & 0xFF`; the
32-bit integer kinds mask `int(v) & 0xFFFFFFFF` (after normalizing `bool32`
to 0/1) and pack with `"<i"` / `"<I"`.  Note that for `int32` the mask
produces a value in `[0, 2^32)` but the signed format `"<i"` only accepts
`[-2^31, 2^31)`, so `struct.pack` raises `struct.error` whenever the masked
value is `>= 2^31` (e.g. for any negative `v`).  Returns the new buffer and
the packed bytes. -/
def write_scalar (buf : List Nat) (off : ℤ) (scalar : Scalar) (v : PyVal) : Except CodecErr (List Nat × List Nat) :=
  let n := fmtWidth scalar
  if off < 0 ∨ (buf.length : ℤ) < off + n then .error .outOfBounds
  else
    match packScalar scalar v with
    | .error e => .error e
    | .ok packed => .ok (setSlice buf off.toNat n packed, packed)

/-- The value the spec says a decode-after-encode returns, written from the
spec's words ("the value normalized per the kind's semantics"): float32
rounds to binary32 precision; bool32 maps nonzero to 1 and zero to 0; uint8
keeps the low 8 bits; uint32 / int32 take the value's low 32 bits read as
unsigned / two's-complement.  (This is the spec-side definition, to be
compared against what the code's `read_scalar` after `write_scalar` actually
produces.) -/
def roundTripSpecValue (scalar : Scalar) (v : PyVal) : Option PyVal :=
  match scalar with
  | .uint8 => (pyInt v).map fun z => .int (z.emod 256)
  | .uint32 => (pyInt v).map fun z => .int (z.emod (2 ^ 32))
  | .bool32 => (pyInt v).map fun z => .int (if z ≠ 0 then 1 else 0)
  | .int32 => (pyInt v).map fun z =>
      .int (if z.emod (2 ^ 32) < 2 ^ 31 then z.emod (2 ^ 32) else z.emod (2 ^ 32) - 2 ^ 32)
  | .float =>
    match pyFloat v with
    | .finite q => (roundF32 q).map fun w => .float (f32ValOfBits w)
    | .inf s => some (.float (.inf s))
    | .nan => some (.float .nan)

/-- `MrdfFieldDef` (frozen dataclass).  The Python attribute `section` is a
Lean keyword and is embedded as `sectionName`; `enum` dictionaries are
embedded as insertion-ordered association lists. -/
structure MrdfFieldDef where
  name : String
  sectionName : String
  offset : Nat
  scalar : Scalar
  notes : String
  enum : Option (List (Nat × String))

deriving DecidableEq, Repr

/-- `MrdfFieldInstance` (dataclass). -/
structure MrdfFieldInstance where
  definition : MrdfFieldDef
  offset : Nat
  raw : List Nat
  value : PyVal

deriving DecidableEq, Repr

def ENGINE_TYPE : List (Nat × String) :=
  [(0x00, "Don\x27t use"), (0x01, "V6"), (0x02, "V8"), (0x03, "V10"), (0x04, "V12"),
   (0x05, "Straight 4"), (0x06, "Straight 5"), (0x07, "Straight 6"),
   (0x08, "Rotary 2"), (0x09, "Rotary 3"), (0x0A, "Flat 4"), (0x0B, "Flat 6"),
   (0x0C, "W16"), (0x0D, "W12"), (0x0E, "Single Cylinder"), (0x0F, "Twin Cylinder"),
   (0x10, "Flat 8"), (0x11, "Flat 12")]

def DRIVETRAIN : List (Nat × String) := [(0, "RWD"), (1, "AWD"), (2, "FWD")]

def BOOST_TYPE : List (Nat × String) :=
  [(0, "Natural Aspiration"), (1, "Supercharged"), (2, "Turbo")]

def ASPIRATION : List (Nat × String) := [(0, "Naturally aspirated"), (1, "Boosted")]

def SHIFT_TYPE : List (Nat × String) := [(0, "H Pattern"), (1, "Sequential")]

/-- Tyre availability bitmask legend at 0xBC (bits 0-7 control individual
compounds). -/
def TYRE_BITS : List (Nat × String) :=
  [(0x01, "Soft / Semi Slick"), (0x02, "Medium"), (0x04, "Hard"),
   (0x08, "Intermediate"), (0x10, "Wet"), (0x20, "Extreme"), (0x40, "All Weather")]

def STATS_MRDF_DEFS : List MrdfFieldDef :=
  [⟨"TopSpeed_mps", "PERFORMANCE", 0x20, .float, "Top speed in meters/sec. MPH*0.447", none⟩,
   ⟨"Accel_0_100_kmh", "PERFORMANCE", 0x24, .float, "0-100km/h time (seconds)", none⟩,
   ⟨"Gear_for_100_kmh", "PERFORMANCE", 0x28, .uint32, "Gear needed to reach 100km/h", none⟩,
   ⟨"Accel_0_160_kmh", "PERFORMANCE", 0x2C, .float, "0-160km/h time (seconds)", none⟩,
   ⟨"Gear_for_160_kmh", "PERFORMANCE", 0x30, .uint32, "Gear needed to reach 160km/h", none⟩,
   ⟨"Braking_100_0_kmh", "PERFORMANCE", 0x34, .float, "100-0km/h time (seconds)", none⟩,
   ⟨"PerformanceIndex_PI", "PERFORMANCE", 0x38, .float, "Performance rating (not used in-game)", none⟩,
   ⟨"Mass_kg", "PERFORMANCE", 0x3C, .float, "Mass in kg", none⟩,
   ⟨"NumGears", "DRIVETRAIN", 0x40, .uint32, "Number of gears in transmission", none⟩,
   ⟨"Torque_lbft", "DRIVETRAIN", 0x44, .float, "Torque in lb-ft", none⟩,
   ⟨"HP_SAE_Net", "DRIVETRAIN", 0x48, .float, "Horsepower (SAE Net)", none⟩,
   ⟨"DrivetrainType", "DRIVETRAIN", 0x4C, .uint32, "00=RWD,01=AWD,02=FWD", some DRIVETRAIN⟩,
   ⟨"BoostType", "ENGINE", 0x50, .uint32, "0=NA,1=Supercharged,2=Turbo", some BOOST_TYPE⟩,
   ⟨"Aspiration", "ENGINE", 0x54, .uint32, "0=NA,1=Boosted", some ASPIRATION⟩,
   ⟨"HandlingPerformance", "HANDLING", 0x58, .float, "Handling performance", none⟩,
   ⟨"Unknown_0x5C", "UNKNOWN", 0x5C, .uint32, "Unknown", none⟩,
   ⟨"Unknown_0x60", "UNKNOWN", 0x60, .uint32, "Unknown", none⟩,
   ⟨"EngineType", "ENGINE", 0x64, .uint32, "Engine type enum", some ENGINE_TYPE⟩,
   ⟨"TierLevel", "META", 0x68, .uint32, "Tier level", none⟩,
   ⟨"Unknown_0x6C", "UNKNOWN", 0x6C, .float, "Unknown float", none⟩,
   ⟨"Unknown_0x70", "UNKNOWN", 0x70, .float, "Unknown float", none⟩,
   ⟨"Unknown_0x74", "UNKNOWN", 0x74, .uint32, "Unknown (often 0x80000000 in sample)", none⟩,
   ⟨"Unknown_0x78", "UNKNOWN", 0x78, .float, "Unknown float", none⟩,
   ⟨"Unknown_0x7C", "UNKNOWN", 0x7C, .float, "Unknown float", none⟩,
   ⟨"BodyHeightAdjust_m", "CHASSIS", 0x80, .float, "Menu-only body height adjust (m)", none⟩,
   ⟨"Wheelbase_m", "CHASSIS", 0x84, .float, "Wheelbase (m)", none⟩,
   ⟨"RearWeightDistribution", "CHASSIS", 0x88, .float, "Rear weight distribution (0..1)", none⟩,
   ⟨"ABS", "ASSISTS", 0x8C, .bool32, "ABS enabled (1=true)", none⟩,
   ⟨"TC", "ASSISTS", 0x90, .bool32, "Traction Control (1=true)", none⟩,
   ⟨"SC", "ASSISTS", 0x94, .bool32, "Stability Control (1=true)", none⟩,
   ⟨"CorneringDifficulty", "HANDLING", 0x98, .uint32, "Cornering difficulty (1,2,3)", none⟩,
   ⟨"CorneringSpeed", "HANDLING", 0x9C, .uint32, "Cornering speed (1,2,3)", none⟩,
   ⟨"EngineDisplacement", "ENGINE", 0xA0, .float, "Engine displacement (units: litres)", none⟩,
   ⟨"ShiftType", "DRIVETRAIN", 0xA4, .uint32, "00=H Pattern,01=Sequential", some SHIFT_TYPE⟩,
   ⟨"DRS_Enabled", "AERO", 0xA8, .bool32, "DRS available (1=true)", none⟩,
   ⟨"BoostButton", "ENGINE", 0xAC, .bool32, "Boost button available (1=true)", none⟩,
   ⟨"AdjustableTurbo", "ENGINE", 0xB0, .bool32, "Adjustable turbo available (1=true)", none⟩,
   ⟨"OnboardRollBars", "CHASSIS", 0xB4, .bool32, "Onboard roll bars adjustable (1=true)", none⟩,
   ⟨"OnboardBrakeBias", "BRAKES", 0xB8, .bool32, "Onboard brake bias adjustable (1=true)", none⟩,
   ⟨"TyreAvailability", "TYRES", 0xBC, .uint32,
    "Tyre availability bitmask in low byte (0x40=All Weather override; else bits 0-5: Soft/Med/Hard/Inter/Wet/Unknown)", none⟩,
   ⟨"Headlights", "ELECTRICAL", 0xC0, .bool32, "Headlights available (1=true)", none⟩,
   ⟨"PitLimiter", "DRIVETRAIN", 0xC4, .bool32, "Pit limiter available (1=true)", none⟩]

def TICK_RATE : List (Nat × String) := [(180, "180 Hz"), (360, "360 Hz"), (540, "540 Hz")]

def BOOL01 : List (Nat × String) := [(0, "False"), (1, "True")]

def PHYSICS_MRDF_DEFS : List MrdfFieldDef :=
  [⟨"BrakeGlowMinTemp", "BRAKES", 0x0030, .float, "Brake glow minimum temp (float)", none⟩,
   ⟨"BrakeGlowMaxTemp", "BRAKES", 0x0034, .float, "Brake glow maximum temp (float)", none⟩,
   ⟨"BrakeGlowScaleAI", "BRAKES", 0x0038, .float, "Brake glow scale for AI (float)", none⟩,
   ⟨"BrakeGlowScalePlayer", "BRAKES", 0x003C, .float, "Brake glow scale for Player (float)", none⟩,
   ⟨"ContinuousCDThickness", "JOINTS", 0x0048, .float, "Continuous CD Thickness (float)", none⟩,
   ⟨"JointIterations", "JOINTS", 0x004C, .uint32, "Joint Iterations (often looks integer in dumps)", none⟩,
   ⟨"JointStrength", "JOINTS", 0x0050, .float, "Joint Strength (float)", none⟩,
   ⟨"EnableAntiFlipAid", "ANTI-FLIP", 0x0054, .uint32, "Enable Anti Flip Aid (0/1)", some BOOL01⟩,
   ⟨"AntiFlipMinAngle", "ANTI-FLIP", 0x0058, .float, "Anti Flip Minimum Angle (deg)", none⟩,
   ⟨"AntiFlipMaxAngle", "ANTI-FLIP", 0x005C, .float, "Anti Flip Maximum Angle (deg)", none⟩,
   ⟨"AntiFlipTorqueForce", "ANTI-FLIP", 0x0060, .float, "Anti Flip Torque Fixing Force", none⟩,
   ⟨"AntiFlipOrientForce", "ANTI-FLIP", 0x0064, .float, "Anti Flip Orientation Fixing Force", none⟩,
   ⟨"MinBumpStopForce", "SUSPENSION", 0x02F0, .float, "Minimum Bump Stop Force", none⟩,
   ⟨"MaxBumpStopForce", "SUSPENSION", 0x02F4, .float, "Maximum Bump Stop Force", none⟩,
   ⟨"DraftMinSpeed", "DRAFTING", 0x02F8, .float, "Drafting Minimum Speed", none⟩,
   ⟨"DraftRampSpeed", "DRAFTING", 0x02FC, .float, "Drafting Ramp Speed", none⟩,
   ⟨"DraftMaxSpeed", "DRAFTING", 0x0300, .float, "Drafting Maximum Speed", none⟩,
   ⟨"DraftMaxDistFront", "DRAFTING", 0x0304, .float, "Drafting Max Distance In Front", none⟩,
   ⟨"DraftMinLatFront", "DRAFTING", 0x0308, .float, "Drafting Min Lateral In Front", none⟩,
   ⟨"DraftMaxLatFront", "DRAFTING", 0x030C, .float, "Drafting Max Lateral In Front", none⟩,
   ⟨"DraftMaxDistBehind", "DRAFTING", 0x0310, .float, "Drafting Max Distance Behind", none⟩,
   ⟨"DraftMinLatBehind", "DRAFTING", 0x0314, .float, "Drafting Min Lateral Behind", none⟩,
   ⟨"DraftMaxLatBehind", "DRAFTING", 0x0318, .float, "Drafting Max Lateral Behind", none⟩,
   ⟨"DraftAirScale", "DRAFTING", 0x031C, .float, "Drafting Air Scale", none⟩,
   ⟨"LowSpeedTCAtRest", "ASSISTS", 0x0320, .float, "Low Speed TC At Rest", none⟩,
   ⟨"LowSpeedTCSpeedThresh", "ASSISTS", 0x0324, .float, "Low Speed TC Speed Threshold", none⟩,
   ⟨"LowSpeedGripAtRest", "ASSISTS", 0x0328, .float, "Low Speed Grip At Rest", none⟩,
   ⟨"LowSpeedGripSpeedTh", "ASSISTS", 0x032C, .float, "Low Speed Grip Speed Threshold", none⟩,
   ⟨"AutoResetDisableCollT", "RESET", 0x0330, .float, "Auto Reset - Time Collision Is Disabled (s)", none⟩,
   ⟨"AutoResetMinSpeedMPH", "RESET", 0x0334, .float, "Auto Reset - Minimum Speed in MPH", none⟩,
   ⟨"AutoClutch", "ASSISTS", 0x0378, .uint32, "Auto Clutch (0/1)", none⟩,
   ⟨"SteeringHelpFunction", "ASSISTS", 0x037C, .uint32, "Steering help function (int)", none⟩,
   ⟨"PhysicsTickRate", "PHYSICS", 0x0380, .uint32, "Physics tick rate", some TICK_RATE⟩,
   ⟨"AutoReverse", "ASSISTS", 0x0384, .uint32, "Auto reverse (0/1)", some BOOL01⟩,
   ⟨"AutoShiftOverrideTime", "ASSISTS", 0x0388, .float, "Auto shift override time (s)", none⟩,
   ⟨"ManShiftOverrideTime", "ASSISTS", 0x038C, .float, "Manual shift override time (s)", none⟩,
   ⟨"AIStrengthNovice", "AI", 0x03B0, .float, "AI Strength Novice", none⟩,
   ⟨"AIStrengthAmateur", "AI", 0x03B4, .float, "AI Strength Amateur", none⟩,
   ⟨"AIStrengthPro", "AI", 0x03B8, .float, "AI Strength Pro", none⟩,
   ⟨"AIAggressionNovice", "AI", 0x03BC, .float, "AI Aggression Novice", none⟩,
   ⟨"AIAggressionNormal", "AI", 0x03C0, .float, "AI Aggression Normal", none⟩,
   ⟨"AIAggressionXP", "AI", 0x03C4, .float, "AI Aggression XP", none⟩,
   ⟨"AIAggressionPro", "AI", 0x03C8, .float, "AI Aggression Pro", none⟩,
   ⟨"FuelMult", "AI", 0x03D4, .uint32, "Fuel mult (int)", none⟩,
   ⟨"TyreMult", "AI", 0x03D8, .uint32, "Tire mult (int)", none⟩]

/-- `MrdfProfile` (frozen dataclass). -/
structure MrdfProfile where
  key : String
  label : String
  defs : List MrdfFieldDef

deriving DecidableEq, Repr

def PROFILES : List MrdfProfile :=
  [⟨"stats", "Statistics MRDF", STATS_MRDF_DEFS⟩,
   ⟨"physics", "Physics Tweaker MRDF", PHYSICS_MRDF_DEFS⟩]

/-- `get_profile_by_key`: linear scan of `PROFILES`; unknown keys fall back
to `PROFILES[0]` (the stats profile — `PROFILES` is statically nonempty, so
the fallback is spelled out as that first element). -/
def get_profile_by_key (key : String) : MrdfProfile :=
  match PROFILES.find? (fun p => p.key == key) with
  | some p => p
  | none => ⟨"stats", "Statistics MRDF", STATS_MRDF_DEFS⟩

/-- Python's `<=` on a `(str, int)` pair as used by `list.sort(key=...)`:
lexicographic on the string's code points, then numeric on the offset. -/
def tupLe : List Nat → Nat → List Nat → Nat → Bool
  | [], o1, [], o2 => decide (o1 ≤ o2)
  | [], _, _ :: _, _ => true
  | _ :: _, _, [], _ => false
  | a :: as, o1, b :: bs, o2 => decide (a < b) || (a == b && tupLe as o1 bs o2)

/-- The code points of a Python string (Python compares strings by code
point). -/
def strCodes (s : String) : List Nat := s.toList.map Char.toNat

/-- The sort key comparison of `parse_mrdf`
(`key=lambda i: (i.definition.section, i.offset)`). -/
def instLe (i j : MrdfFieldInstance) : Bool :=
  tupLe (strCodes i.definition.sectionName) i.offset (strCodes j.definition.sectionName) j.offset

/-- The loop body of `parse_mrdf`: decode each definition, silently skipping
any that raises (`except Exception: continue`). -/
def parse_decoded (blob : List Nat) (defs : List MrdfFieldDef) : List MrdfFieldInstance :=
  defs.filterMap fun d =>
    match read_scalar blob (d.offset : ℤ) d.scalar with
    | .error _ => none
    | .ok (v, raw) => some ⟨d, d.offset, raw, v⟩

/-- `parse_mrdf(blob, defs)`: decode in table order, then
`insts.sort(key=lambda i: (i.definition.section, i.offset))` — Python's
sort is a stable sort by that key, embedded as a stable merge sort under
`instLe`. -/
def parse_mrdf (blob : List Nat) (defs : List MrdfFieldDef) : List MrdfFieldInstance :=
  (parse_decoded blob defs).mergeSort instLe

/-- Is `needle` a prefix of the character list? -/
def isPre : List Char → List Char → Bool
  | [], _ => true
  | _ :: _, [] => false
  | a :: as, b :: bs => a == b && isPre as bs

/-- Python's substring containment `needle in hay` on character lists. -/
def hasSub (needle : List Char) : List Char → Bool
  | [] => isPre needle []
  | c :: rest => isPre needle (c :: rest) || hasSub needle rest

/-- Python `needle in hay` on strings. -/
def strIn (needle hay : String) : Bool := hasSub needle.toList hay.toList

/-- ASCII lowercasing of one character (Python `str.lower`, restricted to
the ASCII range file paths use). -/
def charLower (c : Char) : Char :=
  if 65 ≤ c.toNat ∧ c.toNat ≤ 90 then Char.ofNat (c.toNat + 32) else c

/-- `(file_path or "").lower()` as a character list. -/
def pyLowerChars (s : String) : List Char := s.toList.map charLower

/-- The path-hint rule of `detect_profile`:
`"physicstweaker" in lower or os.sep + "physics" + os.sep in lower`, with
`lower = (file_path or "").lower()`.  `os.sep` is platform-dependent and is
passed explicitly. -/
def pathHint (sep path : String) : Bool :=
  hasSub "physicstweaker".toList (pyLowerChars path) ||
  hasSub (sep ++ "physics" ++ sep).toList (pyLowerChars path)

/-- `struct.unpack_from("<f", blob, off)` at a fixed nonnegative offset:
raises (`none`) when fewer than 4 bytes are available. -/
def unpack_f32_from (blob : List Nat) (off : Nat) : Option F32Val :=
  if off + 4 ≤ blob.length then some (f32ValOfBits (unpack_le ((blob.drop off).take 4)))
  else none

/-- The physics "brake glow" heuristic of `detect_profile`: read four
float32s at 0x30/0x34/0x38/0x3C (any failure inside the `try` makes the
whole check a non-match) and test
`100.0 < bmin < 5000.0 and 100.0 < bmax < 10000.0 and 0.0 <= ai <= 10.0 and
0.0 <= pl <= 10.0`. -/
def physicsHeuristic (blob : List Nat) : Bool :=
  match unpack_f32_from blob 0x0030 with
  | none => false
  | some bmin =>
    match unpack_f32_from blob 0x0034 with
    | none => false
    | some bmax =>
      match unpack_f32_from blob 0x0038 with
      | none => false
      | some ai =>
        match unpack_f32_from blob 0x003C with
        | none => false
        | some pl =>
          F32Val.flt (.finite 100) bmin && F32Val.flt bmin (.finite 5000) &&
          F32Val.flt (.finite 100) bmax && F32Val.flt bmax (.finite 10000) &&
          F32Val.fle (.finite 0) ai && F32Val.fle ai (.finite 10) &&
          F32Val.fle (.finite 0) pl && F32Val.fle pl (.finite 10)

/-- The stats "wheelbase" heuristic of `detect_profile`: one float32 at 0x84
with `1.0 < wb < 6.0`. -/
def wheelbaseHeuristic (blob : List Nat) : Bool :=
  match unpack_f32_from blob 0x84 with
  | none => false
  | some wb => F32Val.flt (.finite 1) wb && F32Val.flt wb (.finite 6)

/-- `detect_profile(file_path, blob)`: path hint, then the physics float
heuristic, then the stats wheelbase heuristic, then the stats default.
Total — every heuristic failure is caught and treated as a non-match. -/
def detect_profile (sep : String) (file_path : String) (blob : List Nat) : MrdfProfile :=
  if pathHint sep file_path then get_profile_by_key "physics"
  else if physicsHeuristic blob then get_profile_by_key "physics"
  else if wheelbaseHeuristic blob then get_profile_by_key "stats"
  else get_profile_by_key "stats"

/-- The spec's worked example buffer: 0x40 bytes with float32 600.0 at 0x30,
1200.0 at 0x34, 1.0 at 0x38 and 1.0 at 0x3C (little-endian), zero
elsewhere. -/
def brakeGlowExampleBuf : List Nat :=
  List.replicate 0x30 0 ++
  [0x00, 0x00, 0x16, 0x44, 0x00, 0x00, 0x96, 0x44,
   0x00, 0x00, 0x80, 0x3F, 0x00, 0x00, 0x80, 0x3F]

/-- `d.offset in self.edits` on the pending-edits dictionary, embedded as an
insertion-ordered association list (Python dicts preserve insertion
order). -/
def edContains (m : List (Nat × PyVal)) (k : Nat) : Bool :=
  m.any fun kv => kv.1 == k

/-- `self.edits[k] = v`: update in place when the key exists, else append. -/
def edInsert (m : List (Nat × PyVal)) (k : Nat) (v : PyVal) : List (Nat × PyVal) :=
  if edContains m k then m.map fun kv => if kv.1 == k then (k, v) else kv
  else m ++ [(k, v)]

/-- `del self.edits[k]`. -/
def edErase (m : List (Nat × PyVal)) (k : Nat) : List (Nat × PyVal) :=
  m.filter fun kv => kv.1 != k

/-- `self.edits[k]` as an optional lookup. -/
def edLookup (m : List (Nat × PyVal)) (k : Nat) : Option PyVal :=
  (m.find? fun kv => kv.1 == k).map fun kv => kv.2

/-- The editor state the claims touch: `self.original_blob`,
`self.working_blob`, `self.edits`, and the hex-target selection
`self._hex_sel_start` / `self._hex_sel_len` (`None` when no target is
selected).  A state models an editor with a file loaded; the selected field
instance and the text-entry contents are passed to the operations as
arguments. -/
structure AppState where
  original_blob : List Nat
  working_blob : List Nat
  edits : List (Nat × PyVal)
  hexSelStart : Option Nat
  hexSelLen : Option Nat

deriving DecidableEq, Repr

/-- `revert_field`: returns unchanged (early `return`) when the selected
definition's offset has no pending edit; otherwise restores
`original_blob[off : off + width]` into the working buffer and deletes the
pending entry. -/
def revert_field (st : AppState) (inst : MrdfFieldInstance) : AppState :=
  let d := inst.definition
  if ¬ edContains st.edits d.offset then st
  else
    let n := fmtWidth d.scalar
    { st with
      working_blob := setSlice st.working_blob d.offset n
        ((st.original_blob.drop d.offset).take n),
      edits := edErase st.edits d.offset }

/-- A state whose working buffer differs from the original at offset 0 while
the pending-edits ledger is empty (as after a raw hex overwrite, which does
not record pending edits). -/
def revertNoEntryState : AppState := ⟨[1, 2, 3, 4], [9, 2, 3, 4], [], none, none⟩

/-- A selected single-byte field at offset 0. -/
def revertFieldInst : MrdfFieldInstance := ⟨⟨"X", "S", 0, .uint8, "", none⟩, 0, [9], .int 9⟩

/-- The same field and buffers as `revertNoEntryState`, but with a pending
edit recorded at offset 0. -/
def revertWithEntryState : AppState := ⟨[1, 2, 3, 4], [9, 2, 3, 4], [(0, .int 9)], none, none⟩

/-- Python `s.strip()` (whitespace from both ends). -/
def pyStrip (cs : List Char) : List Char :=
  ((cs.dropWhile Char.isWhitespace).reverse.dropWhile Char.isWhitespace).reverse

/-- Worker for `pySplitWs`: `acc` is the current token, reversed. -/
def pySplitWsAux : List Char → List Char → List (List Char)
  | [], [] => []
  | [], acc => [acc.reverse]
  | c :: rest, acc =>
    if c.isWhitespace then
      match acc with
      | [] => pySplitWsAux rest []
      | _ => acc.reverse :: pySplitWsAux rest []
    else pySplitWsAux rest (c :: acc)

/-- Python `s.split()` (split on runs of whitespace, no empty tokens). -/
def pySplitWs (cs : List Char) : List (List Char) :=
  pySplitWsAux cs []

/-- The value of one hexadecimal digit. -/
def hexDigitVal (c : Char) : Option Nat :=
  if '0' ≤ c ∧ c ≤ '9' then some (c.toNat - 48)
  else if 'a' ≤ c ∧ c ≤ 'f' then some (c.toNat - 87)
  else if 'A' ≤ c ∧ c ≤ 'F' then some (c.toNat - 55)
  else none

/-- Hex digits after the first, allowing a single underscore between
digits (CPython's numeric-literal underscore rule). -/
def hexValAux : List Char → Nat → Option Nat
  | [], acc => some acc
  | ['_'], _ => none
  | '_' :: c :: rest, acc =>
    match hexDigitVal c with
    | some d => hexValAux rest (16 * acc + d)
    | none => none
  | c :: rest, acc =>
    match hexDigitVal c with
    | some d => hexValAux rest (16 * acc + d)
    | none => none

/-- A nonempty run of hex digits (with internal underscores). -/
def hexVal : List Char → Option Nat
  | [] => none
  | '_' :: _ => none
  | c :: rest =>
    match hexDigitVal c with
    | some d => hexValAux rest d
    | none => none

/-- The digits of `int(p, 16)` after the optional sign: an optional
`0x`/`0X` prefix (an underscore may follow the prefix), then hex digits. -/
def pyInt16mag : List Char → Option Nat
  | '0' :: 'x' :: '_' :: rest => hexVal rest
  | '0' :: 'x' :: rest => hexVal rest
  | '0' :: 'X' :: '_' :: rest => hexVal rest
  | '0' :: 'X' :: rest => hexVal rest
  | rest => hexVal rest

/-- Python `int(p, 16)` on a whitespace-free token: optional sign, optional
`0x` prefix, hex digits. -/
def pyInt16 (cs : List Char) : Option ℤ :=
  match cs with
  | '+' :: rest => (pyInt16mag rest).map fun n => (n : ℤ)
  | '-' :: rest => (pyInt16mag rest).map fun n => -(n : ℤ)
  | rest => (pyInt16mag rest).map fun n => (n : ℤ)

/-- The generator `bytes(int(p, 16) for p in parts)`: every token must parse
in base 16 and land in `[0, 256)`, else the `bytes` constructor (or `int`)
raises `ValueError`. -/
def tokensToBytes : List (List Char) → Option (List Nat)
  | [] => some []
  | p :: ps =>
    match pyInt16 p with
    | some z =>
      if 0 ≤ z ∧ z < 256 then (tokensToBytes ps).map fun bs => z.toNat :: bs
      else none
    | none => none

/-- `_parse_hex_bytes(s)`: strip; empty means `b""`; replace commas with
spaces and split on whitespace; parse every token with `int(p, 16)` and
build the byte string, raising `ValueError` (the `error` case) when any
token fails or is out of byte range. -/
def parse_hex_bytes (s : String) : Except Unit (List Nat) :=
  let t := pyStrip s.toList
  if t.isEmpty then .ok []
  else
    match tokensToBytes (pySplitWs (t.map fun c => if c == ',' then ' ' else c)) with
    | some bs => .ok bs
    | none => .error ()

/-- The outcome `apply_hex_overwrite` reports to the operator. -/
inductive HexOvwResult
  | noop
  | parseError
  | lengthMismatch
  | applied

deriving DecidableEq, Repr

/-- `apply_hex_overwrite`: requires a selected target range; parses the hex
literal (aborting on a parse failure); requires the byte count to equal the
target length exactly (aborting with the mismatch message); then splices the
bytes into the working buffer.  The pending-edits ledger is not touched on
any path. -/
def apply_hex_overwrite (st : AppState) (hexEditText : String) : AppState × HexOvwResult :=
  match st.hexSelStart, st.hexSelLen with
  | some start, some n =>
    (match parse_hex_bytes hexEditText with
     | .error _ => (st, .parseError)
     | .ok new_bytes =>
       if new_bytes.length ≠ n then (st, .lengthMismatch)
       else ({ st with working_blob := setSlice st.working_blob start n new_bytes }, .applied))
  | _, _ => (st, .noop)

/-- A state with bytes 1..4 loaded, one pending edit, and the 2-byte range
at offset 1 selected as the hex target. -/
def hexOvwState : AppState := ⟨[0, 0, 0, 0], [1, 2, 3, 4], [(0, .int 5)], some 1, some 2⟩

/-- The value of one decimal digit. -/
def decDigitVal (c : Char) : Option Nat :=
  if '0' ≤ c ∧ c ≤ '9' then some (c.toNat - 48) else none

/-- Decimal digits after the first, allowing single underscores between
digits. -/
def decValAux : List Char → Nat → Option Nat
  | [], acc => some acc
  | ['_'], _ => none
  | '_' :: c :: rest, acc =>
    match decDigitVal c with
    | some d => decValAux rest (10 * acc + d)
    | none => none
  | c :: rest, acc =>
    match decDigitVal c with
    | some d => decValAux rest (10 * acc + d)
    | none => none

/-- A nonempty run of decimal digits (with internal underscores). -/
def decVal : List Char → Option Nat
  | [] => none
  | '_' :: _ => none
  | c :: rest =>
    match decDigitVal c with
    | some d => decValAux rest d
    | none => none

/-- Python `int(s, 10)` on a stripped token: optional sign, then decimal
digits. -/
def pyInt10 (cs : List Char) : Option ℤ :=
  match cs with
  | '+' :: rest => (decVal rest).map fun n => (n : ℤ)
  | '-' :: rest => (decVal rest).map fun n => -(n : ℤ)
  | rest => (decVal rest).map fun n => (n : ℤ)

/-- Split at the first occurrence of `a` or `b`: the part before it, and
(when found) the part after it. -/
def splitOnFirst (a b : Char) : List Char → List Char × Option (List Char)
  | [] => ([], none)
  | c :: rest =>
    if c == a || c == b then ([], some rest)
    else
      let r := splitOnFirst a b rest
      (c :: r.1, r.2)

/-- The number of digits in a fraction part (underscores do not count). -/
def digitCount (cs : List Char) : Nat :=
  (cs.filter fun c => decide ('0' ≤ c ∧ c ≤ '9')).length

/-- The exponent of a float literal: optional sign, then decimal digits. -/
def pyExpVal : List Char → Option ℤ
  | '+' :: rest => (decVal rest).map fun n => (n : ℤ)
  | '-' :: rest => (decVal rest).map fun n => -(n : ℤ)
  | rest => (decVal rest).map fun n => (n : ℤ)

/-- `ipart.fpart * 10^ez` as an exact rational (built with one `mkRat` so it
evaluates by kernel reduction). -/
def ratOfSci (ipv fpv dc : Nat) (ez : ℤ) : ℚ :=
  let num := ipv * 10 ^ dc + fpv
  let k : ℤ := ez - dc
  if 0 ≤ k then mkRat (num * 10 ^ k.toNat) 1 else mkRat num (10 ^ (-k).toNat)

/-- The magnitude of a Python float literal: `digits[.digits][(e|E)exp]`,
with at least one mantissa digit.  The embedding treats Python doubles as
exact rationals (no 53-bit rounding, no overflow-to-infinity for huge
literals). -/
def pyFloatMag (cs : List Char) : Option ℚ :=
  let me := splitOnFirst 'e' 'E' cs
  let md := splitOnFirst '.' '.' me.1
  let ip := md.1
  let fp := (md.2).getD []
  if ip.isEmpty && fp.isEmpty then none
  else
    match (if ip.isEmpty then some 0 else decVal ip),
          (if fp.isEmpty then some 0 else decVal fp) with
    | some ipv, some fpv =>
      match me.2 with
      | none => some (ratOfSci ipv fpv (digitCount fp) 0)
      | some es =>
        match pyExpVal es with
        | some ez => some (ratOfSci ipv fpv (digitCount fp) ez)
        | none => none
    | _, _ => none

/-- Python `float(s)` on a stripped literal: optional sign; `inf`,
`infinity` and `nan` (case-insensitive); else a decimal literal. -/
def pyFloatLitMag (cs : List Char) (neg : Bool) : Option F32Val :=
  let low := cs.map charLower
  if low = "inf".toList ∨ low = "infinity".toList then some (.inf neg)
  else if low = "nan".toList then some .nan
  else (pyFloatMag cs).map fun q => .finite (if neg then -q else q)

/-- Python `float(s)` on a stripped literal, sign included. -/
def pyFloatLit : List Char → Option F32Val
  | '+' :: rest => pyFloatLitMag rest false
  | '-' :: rest => pyFloatLitMag rest true
  | rest => pyFloatLitMag rest false

/-- `s.lower().startswith("0x")`. -/
def startsWith0xLower (cs : List Char) : Bool :=
  isPre "0x".toList (cs.map charLower)

/-- The `new_val` computation of `apply_edit` (the first `try` block):
the `TyreAvailability` bitmask composes the checked masks with bitwise or;
an enumerated field with a nonempty enum-choice text parses the leading
token as a decimal int; otherwise the editor text is stripped and parsed as
a float for `float` fields, as hex when it starts with `0x`, else as a
decimal int.  `none` models the `except` arm (the "Invalid edit" message,
no mutation). -/
def compute_new_val (d : MrdfFieldDef) (bitmaskVars : List (Nat × Bool))
    (enumChoice editorText : String) : Option PyVal :=
  if d.name == "TyreAvailability" then
    some (.int ((bitmaskVars.foldl (fun acc mv => if mv.2 then acc ||| mv.1 else acc) 0 : Nat) : ℤ))
  else if d.enum.isSome && !(pyStrip enumChoice.toList).isEmpty then
    match pySplitWs enumChoice.toList with
    | tok :: _ => (pyInt10 tok).map .int
    | [] => none
  else
    let s := pyStrip editorText.toList
    if d.scalar = .float then (pyFloatLit s).map .float
    else if startsWith0xLower s then (pyInt16 s).map .int
    else (pyInt10 s).map .int

/-- The outcome `apply_edit` reports to the operator. -/
inductive EditResult
  | invalidEdit
  | writeFailed (e : CodecErr)
  | applied

deriving DecidableEq, Repr

/-- `apply_edit`: parse the user-supplied value (aborting with the
"Invalid edit" message and no mutation on failure); encode it through the
scalar codec into a copy of the working buffer (aborting with the
"Write failed" message and no mutation on failure); on success install the
new buffer and record `offset -> new_val` in the pending edits. -/
def apply_edit (st : AppState) (inst : MrdfFieldInstance) (bitmaskVars : List (Nat × Bool))
    (enumChoice editorText : String) : AppState × EditResult :=
  match compute_new_val inst.definition bitmaskVars enumChoice editorText with
  | none => (st, .invalidEdit)
  | some new_val =>
    match write_scalar st.working_blob (inst.definition.offset : ℤ)
        inst.definition.scalar new_val with
    | .error e => (st, .writeFailed e)
    | .ok (out, _) =>
      ({ st with
          working_blob := out,
          edits := edInsert st.edits inst.definition.offset new_val }, .applied)

/-- A freshly loaded 8-byte zero buffer with no pending edits. -/
def editState : AppState := ⟨List.replicate 8 0, List.replicate 8 0, [], none, none⟩

/-- A selected `uint32` field at offset 4. -/
def editInstU32 : MrdfFieldInstance := ⟨⟨"F", "S", 4, .uint32, "", none⟩, 4, [0, 0, 0, 0], .int 0⟩

/-- A selected `float` field at offset 0. -/
def editInstF32 : MrdfFieldInstance :=
  ⟨⟨"G", "S", 0, .float, "", none⟩, 0, [0, 0, 0, 0], .float (.finite 0)⟩

/-! ## Theorems -/

theorem pack_le_length : ∀ (w n : Nat), (pack_le w n).length = n
  | _, 0 => rfl
  | w, n + 1 => by simp [pack_le, pack_le_length (w / 256) n]

theorem unpack_le_pack_le : ∀ (n w : Nat), unpack_le (pack_le w n) = w % 256 ^ n
  | 0, w => by simp [pack_le, unpack_le, Nat.mod_one]
  | n + 1, w => by
    simp only [pack_le, unpack_le, unpack_le_pack_le n (w / 256)]
    rw [Nat.pow_succ, Nat.mul_comm (256 ^ n) 256, Nat.mod_mul]

theorem pack_le_lt_256 : ∀ (w n : Nat), ∀ b ∈ pack_le w n, b < 256
  | _, 0 => by simp [pack_le]
  | w, n + 1 => by
    simp only [pack_le, List.mem_cons]
    rintro b (rfl | hb)
    · omega
    · exact pack_le_lt_256 (w / 256) n b hb

theorem setSlice_eq_of_le (buf : List Nat) (i n : Nat) (xs : List Nat)
    (h : i + n ≤ buf.length) :
    setSlice buf i n xs = buf.take i ++ xs ++ buf.drop (i + n) := by
  unfold setSlice
  rw [Nat.min_eq_left (by omega), Nat.min_eq_left h]

theorem setSlice_length (buf : List Nat) (i n : Nat) (xs : List Nat)
    (h : i + n ≤ buf.length) (hx : xs.length = n) :
    (setSlice buf i n xs).length = buf.length := by
  rw [setSlice_eq_of_le buf i n xs h]
  simp [List.length_take, List.length_drop, hx]
  omega

theorem setSlice_take (buf : List Nat) (i n : Nat) (xs : List Nat)
    (h : i + n ≤ buf.length) :
    (setSlice buf i n xs).take i = buf.take i := by
  rw [setSlice_eq_of_le buf i n xs h, List.append_assoc]
  rw [List.take_append_of_le_length (by simp [List.length_take]; omega)]
  rw [List.take_take]
  simp [Nat.min_eq_left h]

theorem setSlice_drop (buf : List Nat) (i n : Nat) (xs : List Nat)
    (h : i + n ≤ buf.length) (hx : xs.length = n) :
    (setSlice buf i n xs).drop (i + n) = buf.drop (i + n) := by
  rw [setSlice_eq_of_le buf i n xs h]
  have hlen : (buf.take i ++ xs).length = i + n := by
    simp [List.length_take, hx]; omega
  exact List.drop_left' hlen

theorem setSlice_window (buf : List Nat) (i n : Nat) (xs : List Nat)
    (h : i + n ≤ buf.length) (hx : xs.length = n) :
    ((setSlice buf i n xs).drop i).take n = xs := by
  rw [setSlice_eq_of_le buf i n xs h, List.append_assoc]
  rw [List.drop_left' (by simp [List.length_take]; omega)]
  exact List.take_left' hx

theorem roundF32aux_lt (s : Nat) (e n : ℤ) (w : Nat) (hs : s ≤ 1)
    (h : roundF32aux s e n = some w) : w < 2 ^ 32 := by
  unfold roundF32aux at h
  split at h
  · exact absurd h (by simp)
  · split at h <;>
    · simp only [Option.some.injEq] at h
      subst h
      have h23 : n.toNat % 2 ^ 23 < 2 ^ 23 := Nat.mod_lt _ (by norm_num)
      have h23' : (n.toNat - 2 ^ 23) % 2 ^ 23 < 2 ^ 23 := Nat.mod_lt _ (by norm_num)
      have h8 : (e + 127).toNat % 2 ^ 8 < 2 ^ 8 := Nat.mod_lt _ (by norm_num)
      omega

theorem roundF32_lt (q : ℚ) (w : Nat) (h : roundF32 q = some w) : w < 2 ^ 32 := by
  unfold roundF32 at h
  split at h
  · simp only [Option.some.injEq] at h; omega
  · have hs : (if q < 0 then (1 : Nat) else 0) ≤ 1 := by split <;> omega
    simp only at h
    split at h <;> exact roundF32aux_lt _ _ _ _ hs h

/-- Every byte list produced by a successful `packScalar` has exactly the
kind's width. -/
theorem packIntKind_ok_length (k : Scalar) (v : PyVal) (packed : List Nat)
    (h : packIntKind k v = .ok packed) : packed.length = 4 := by
  unfold packIntKind at h
  split at h
  · split at h
    · exact absurd h (by simp)
    · simp only [Except.ok.injEq] at h
      subst h
      exact pack_le_length _ 4
  · exact absurd h (by simp)

theorem packScalar_ok_length (scalar : Scalar) (v : PyVal) (packed : List Nat)
    (h : packScalar scalar v = .ok packed) : packed.length = fmtWidth scalar := by
  cases scalar
  case float =>
    simp only [packScalar] at h
    split at h
    · split at h
      · simp only [Except.ok.injEq] at h
        subst h
        exact pack_le_length _ 4
      · exact absurd h (by simp)
    · simp only [Except.ok.injEq] at h
      subst h
      exact pack_le_length _ 4
    · simp only [Except.ok.injEq] at h
      subst h
      exact pack_le_length _ 4
  case uint8 =>
    simp only [packScalar] at h
    split at h
    · simp only [Except.ok.injEq] at h
      subst h
      exact pack_le_length _ 1
    · exact absurd h (by simp)
  all_goals
    simp only [packScalar] at h
    exact packIntKind_ok_length _ _ _ h

/-- Shape of every successful `write_scalar`: the bounds check passed, the
packed bytes have exactly the kind's width, and the result buffer is the
input with the packed bytes spliced in at `off`. -/
theorem write_scalar_ok (buf : List Nat) (off : ℤ) (scalar : Scalar) (v : PyVal)
    (buf' packed : List Nat)
    (h : write_scalar buf off scalar v = .ok (buf', packed)) :
    0 ≤ off ∧ off + fmtWidth scalar ≤ (buf.length : ℤ) ∧
    packed.length = fmtWidth scalar ∧
    packScalar scalar v = .ok packed ∧
    buf' = setSlice buf off.toNat (fmtWidth scalar) packed := by
  unfold write_scalar at h
  simp only at h
  split at h
  · exact absurd h (by simp)
  · rename_i hb
    push_neg at hb
    rcases hp : packScalar scalar v with e | p <;> rw [hp] at h
    · exact absurd h (by simp)
    · simp only [Except.ok.injEq, Prod.mk.injEq] at h
      obtain ⟨hb1, hp1⟩ := h
      subst hp1
      refine ⟨hb.1, hb.2, packScalar_ok_length scalar v p hp, ?_, hb1.symm⟩
      first
      | exact hp
      | rfl

theorem maskedWord_lt (k : Scalar) (z : ℤ) : maskedWord k z < 2 ^ 32 := by
  unfold maskedWord
  have h1 : 0 ≤ (if k = .bool32 then (if z ≠ 0 then (1 : ℤ) else 0) else z).emod (2 ^ 32) :=
    Int.emod_nonneg _ (by norm_num)
  have h2 : (if k = .bool32 then (if z ≠ 0 then (1 : ℤ) else 0) else z).emod (2 ^ 32) < 2 ^ 32 :=
    Int.emod_lt_of_pos _ (by norm_num)
  omega

/-- Reading a field that was just spliced in: the bounds check passes (the
splice preserved the length) and the raw slice is exactly the spliced bytes. -/
theorem read_scalar_setSlice (buf : List Nat) (off : ℤ) (scalar : Scalar) (packed : List Nat)
    (h0 : 0 ≤ off) (hn : off + fmtWidth scalar ≤ (buf.length : ℤ))
    (hp : packed.length = fmtWidth scalar) :
    read_scalar (setSlice buf off.toNat (fmtWidth scalar) packed) off scalar =
      .ok (decodeWord scalar (unpack_le packed), packed) := by
  have hle : off.toNat + fmtWidth scalar ≤ buf.length := by omega
  unfold read_scalar
  simp only
  rw [setSlice_length buf off.toNat (fmtWidth scalar) packed hle hp]
  rw [if_neg (by push_neg; omega)]
  rw [setSlice_window buf off.toNat (fmtWidth scalar) packed hle hp]

/-- C1 (amended): for every buffer, scalar kind, value and in-bounds offset
(`0 <= offset` and `offset + width(kind) <= len(buffer)`), whenever
`write_scalar` returns successfully it has written exactly `width(kind)`
bytes at `offset` (the returned packed bytes), left every byte outside
`[offset, offset + width)` equal to its prior value, and left the buffer's
length unchanged.  (The amendment conditions on success: for `int32` values
whose low 32 bits are `>= 2^31`, and for floats overflowing binary32,
`write_scalar` raises instead — and then no buffer is produced at all, so no
byte and no length ever changes.) -/
theorem write_scalar_frame (buf : List Nat) (off : ℤ) (scalar : Scalar) (v : PyVal)
    (buf' packed : List Nat)
    (h0 : 0 ≤ off) (hn : off + fmtWidth scalar ≤ (buf.length : ℤ))
    (h : write_scalar buf off scalar v = .ok (buf', packed)) :
    buf'.length = buf.length ∧
    packed.length = fmtWidth scalar ∧
    (buf'.drop off.toNat).take (fmtWidth scalar) = packed ∧
    buf'.take off.toNat = buf.take off.toNat ∧
    buf'.drop (off.toNat + fmtWidth scalar) = buf.drop (off.toNat + fmtWidth scalar) := by
  obtain ⟨-, -, hplen, -, hbuf⟩ := write_scalar_ok buf off scalar v buf' packed h
  have hle : off.toNat + fmtWidth scalar ≤ buf.length := by omega
  subst hbuf
  exact ⟨setSlice_length _ _ _ _ hle hplen, hplen, setSlice_window _ _ _ _ hle hplen,
    setSlice_take _ _ _ _ hle, setSlice_drop _ _ _ _ hle hplen⟩

/-- C1 counterexample: at the in-bounds offset 0 of a 4-byte buffer,
`write_scalar` with kind `int32` and value `-1` does not write 4 bytes —
it raises `struct.error` (the mask `& 0xFFFFFFFF` yields `0xFFFFFFFF`,
out of range for the signed `"<i"` format), refuting the claim's "for every
value". -/
theorem write_scalar_int32_counterexample :
    write_scalar [0, 0, 0, 0] 0 .int32 (.int (-1)) = .error .structRange := by decide

/-- C1 witness: a concrete successful write (`uint8` value 300 at offset 1
of a 6-byte buffer, truncated to the byte 44) satisfying the frame
property. -/
theorem write_scalar_frame_witness :
    ([1, 44, 3, 4, 5, 6] : List Nat).length = ([1, 2, 3, 4, 5, 6] : List Nat).length :=
  (write_scalar_frame [1, 2, 3, 4, 5, 6] 1 .uint8 (.int 300) [1, 44, 3, 4, 5, 6] [44]
    (by decide) (by decide) (by decide)).1

theorem unpack_le_pack_le_4 (w : Nat) (hw : w < 2 ^ 32) :
    unpack_le (pack_le w 4) = w := by
  rw [unpack_le_pack_le 4 w]
  exact Nat.mod_eq_of_lt (by norm_num; omega)

theorem unpack_le_pack_le_1 (w : Nat) (hw : w < 256) :
    unpack_le (pack_le w 1) = w := by
  rw [unpack_le_pack_le 1 w]
  exact Nat.mod_eq_of_lt (by omega)

/-- What a successful pack decodes back to: exactly the spec's normalized
value for the kind. -/
theorem packScalar_roundTrip (scalar : Scalar) (v : PyVal) (packed : List Nat)
    (hpack : packScalar scalar v = .ok packed) :
    roundTripSpecValue scalar v = some (decodeWord scalar (unpack_le packed)) := by
  cases scalar
  case float =>
    simp only [packScalar] at hpack
    simp only [roundTripSpecValue]
    rcases hf : pyFloat v with q | s | _ <;> rw [hf] at hpack <;>
      simp only at hpack <;> simp only [hf]
    · rcases hr : roundF32 q with _ | w <;> rw [hr] at hpack <;> simp only at hpack
      · exact absurd hpack (by simp)
      · simp only [Except.ok.injEq] at hpack
        subst hpack
        rw [unpack_le_pack_le_4 w (roundF32_lt q w hr)]
        simp [decodeWord, hr]
    · simp only [Except.ok.injEq] at hpack
      subst hpack
      rcases s
      · rw [show (if (false = true) then (0xFF800000 : Nat) else 0x7F800000) = 0x7F800000 by simp]
        rw [unpack_le_pack_le_4 _ (by norm_num)]
        simp only [decodeWord]
        decide
      · rw [show (if (true = true) then (0xFF800000 : Nat) else 0x7F800000) = 0xFF800000 by simp]
        rw [unpack_le_pack_le_4 _ (by norm_num)]
        simp only [decodeWord]
        decide
    · simp only [Except.ok.injEq] at hpack
      subst hpack
      rw [unpack_le_pack_le_4 _ (by norm_num)]
      simp only [decodeWord]
      decide
  case uint8 =>
    simp only [packScalar] at hpack
    simp only [roundTripSpecValue]
    rcases hz : pyInt v with _ | z <;> rw [hz] at hpack
    · exact absurd hpack (by simp)
    · simp only [Except.ok.injEq] at hpack
      subst hpack
      have h1 : 0 ≤ z.emod 256 := Int.emod_nonneg _ (by norm_num)
      have h2 : z.emod 256 < 256 := Int.emod_lt_of_pos _ (by norm_num)
      rw [unpack_le_pack_le_1 _ (by omega)]
      simp [decodeWord, Int.toNat_of_nonneg h1]
  case int32 =>
    simp only [packScalar] at hpack
    unfold packIntKind at hpack
    rcases hz : pyInt v with _ | z <;> rw [hz] at hpack
    · exact absurd hpack (by simp)
    · simp only at hpack
      split at hpack
      · exact absurd hpack (by simp)
      · rename_i hcond
        simp only [Except.ok.injEq] at hpack
        subst hpack
        rw [unpack_le_pack_le_4 _ (maskedWord_lt _ z)]
        have h1 : 0 ≤ z.emod (2 ^ 32) := Int.emod_nonneg _ (by norm_num)
        have hmw : maskedWord .int32 z = (z.emod (2 ^ 32)).toNat := by
          unfold maskedWord
          simp
        have hlt : maskedWord .int32 z < 2 ^ 31 := by
          by_contra hge
          exact hcond ⟨trivial, by omega⟩
        simp only [roundTripSpecValue, hz, Option.map, decodeWord]
        rw [if_pos hlt, if_pos (by omega)]
        congr 1
        congr 1
        omega
  case uint32 =>
    simp only [packScalar] at hpack
    unfold packIntKind at hpack
    rcases hz : pyInt v with _ | z <;> rw [hz] at hpack
    · exact absurd hpack (by simp)
    · simp only at hpack
      split at hpack
      · exact absurd hpack (by simp)
      · simp only [Except.ok.injEq] at hpack
        subst hpack
        rw [unpack_le_pack_le_4 _ (maskedWord_lt _ z)]
        have h1 : 0 ≤ z.emod (2 ^ 32) := Int.emod_nonneg _ (by norm_num)
        have hmw : maskedWord .uint32 z = (z.emod (2 ^ 32)).toNat := by
          unfold maskedWord
          simp
        simp only [roundTripSpecValue, hz, Option.map, decodeWord, hmw]
        congr 1
        congr 1
        omega
  case bool32 =>
    simp only [packScalar] at hpack
    unfold packIntKind at hpack
    rcases hz : pyInt v with _ | z <;> rw [hz] at hpack
    · exact absurd hpack (by simp)
    · simp only at hpack
      split at hpack
      · exact absurd hpack (by simp)
      · simp only [Except.ok.injEq] at hpack
        subst hpack
        rw [unpack_le_pack_le_4 _ (maskedWord_lt _ z)]
        rcases eq_or_ne z 0 with rfl | hz0
        · simp [roundTripSpecValue, hz, decodeWord, maskedWord]
          decide
        · have hmw : maskedWord .bool32 z = 1 := by
            unfold maskedWord
            simp [hz0]
            decide
          simp [roundTripSpecValue, hz, decodeWord, hmw, hz0]

/-- C2 (amended): for every buffer, scalar kind, value and in-bounds offset,
whenever `write_scalar` succeeds, `read_scalar` at that offset returns
exactly the value normalized per the kind's semantics (float32 re-reads as
the binary32 rounding of the value, bool32 as 1 for nonzero `int(v)` and 0
for zero, uint8 as the low 8 bits, uint32/int32 as the low 32 bits under
unsigned / two's-complement reading), together with the written raw bytes.
(The amendment conditions on encode success: for `int32` values whose low 32
bits are `>= 2^31`, `struct.pack` raises instead of round-tripping, see the
counterexample.) -/
theorem read_after_write (buf : List Nat) (off : ℤ) (scalar : Scalar) (v : PyVal)
    (buf' packed : List Nat)
    (h0 : 0 ≤ off) (hn : off + fmtWidth scalar ≤ (buf.length : ℤ))
    (h : write_scalar buf off scalar v = .ok (buf', packed)) :
    ∃ v', roundTripSpecValue scalar v = some v' ∧
      read_scalar buf' off scalar = .ok (v', packed) := by
  obtain ⟨-, -, hplen, hpack, hbuf⟩ := write_scalar_ok buf off scalar v buf' packed h
  subst hbuf
  exact ⟨decodeWord scalar (unpack_le packed), packScalar_roundTrip scalar v packed hpack,
    read_scalar_setSlice buf off scalar packed h0 hn hplen⟩

/-- C2 counterexample: the claim promises the round trip for every value of
every kind at every in-bounds offset, but for kind `int32` and value `-1`
at offset 0 of a 4-byte buffer the encode itself raises `struct.error`
(masking makes `0xFFFFFFFF`, out of range for `"<i"`), so no decode of an
encoded buffer can return the promised two's-complement value. -/
theorem read_after_write_int32_counterexample :
    write_scalar [85, 85, 85, 85] 0 .int32 (.int (-1)) = .error .structRange := by decide

/-- C2 witness: writing `-1` as `uint32` at offset 0 packs `FF FF FF FF`,
and reading it back yields the normalized value 4294967295. -/
theorem read_after_write_witness :
    ∃ v', roundTripSpecValue .uint32 (.int (-1)) = some v' ∧
      read_scalar [255, 255, 255, 255] 0 .uint32 = .ok (v', [255, 255, 255, 255]) :=
  read_after_write [0, 0, 0, 0] 0 .uint32 (.int (-1)) [255, 255, 255, 255]
    [255, 255, 255, 255] (by decide) (by decide) (by decide)

/-- C4 (code-bug evidence): `read_scalar` and the bounds side of
`write_scalar` do fail with the bounds error exactly at `offset < 0` or
`offset + width > len`, but the claim's "encode succeeds for every integer
value of the kind with silent truncation" is contradicted by the code for
`int32`: at the in-bounds offset 0 with value `-5` the mask yields
`0xFFFFFFFB`, and packing it with the signed `"<i"` format raises
`struct.error` — while `uint32` does silently truncate the same value. -/
theorem write_scalar_int32_range_bug :
    write_scalar [0, 0, 0, 0, 0, 0, 0, 0] 0 .int32 (.int (-5)) = .error .structRange ∧
    write_scalar [0, 0, 0, 0, 0, 0, 0, 0] 0 .uint32 (.int (-5)) =
      .ok ([251, 255, 255, 255, 0, 0, 0, 0], [251, 255, 255, 255]) ∧
    read_scalar [0, 0, 0, 0, 0, 0, 0, 0] 6 .int32 = .error .outOfBounds ∧
    read_scalar [0, 0, 0, 0, 0, 0, 0, 0] (-1) .int32 = .error .outOfBounds ∧
    write_scalar [0, 0, 0, 0, 0, 0, 0, 0] 5 .int32 (.int 7) = .error .outOfBounds := by
  refine ⟨by decide, by decide, by decide, by decide, by decide⟩

theorem tupLe_total : ∀ (s1 : List Nat) (o1 : Nat) (s2 : List Nat) (o2 : Nat),
    (tupLe s1 o1 s2 o2 || tupLe s2 o2 s1 o1) = true := by
  intro s1
  induction s1 with
  | nil =>
    intro o1 s2 o2
    cases s2 <;> first
      | (simp [tupLe]; omega)
      | simp [tupLe]
  | cons a as ih =>
    intro o1 s2 o2
    cases s2 with
    | nil => simp [tupLe]
    | cons b bs =>
      simp only [tupLe, Bool.or_eq_true, Bool.and_eq_true, decide_eq_true_eq, beq_iff_eq]
      rcases Nat.lt_trichotomy a b with h | h | h
      · exact Or.inl (Or.inl h)
      · subst h
        have := ih o1 bs o2
        simp only [Bool.or_eq_true] at this
        rcases this with h' | h'
        · exact Or.inl (Or.inr ⟨rfl, h'⟩)
        · exact Or.inr (Or.inr ⟨rfl, h'⟩)
      · exact Or.inr (Or.inl h)

theorem tupLe_trans : ∀ (s1 : List Nat) (o1 : Nat) (s2 : List Nat) (o2 : Nat)
    (s3 : List Nat) (o3 : Nat),
    tupLe s1 o1 s2 o2 = true → tupLe s2 o2 s3 o3 = true → tupLe s1 o1 s3 o3 = true := by
  intro s1
  induction s1 with
  | nil =>
    intro o1 s2 o2 s3 o3 h12 h23
    cases s2 <;> cases s3 <;> first
      | (simp_all [tupLe]; omega)
      | simp_all [tupLe]
  | cons a as ih =>
    intro o1 s2 o2 s3 o3 h12 h23
    cases s2 with
    | nil => simp [tupLe] at h12
    | cons b bs =>
      cases s3 with
      | nil => simp [tupLe] at h23
      | cons c cs =>
        simp only [tupLe, Bool.or_eq_true, Bool.and_eq_true, decide_eq_true_eq,
          beq_iff_eq] at h12 h23 ⊢
        rcases h12 with h12 | ⟨rfl, r12⟩
        · rcases h23 with h23 | ⟨rfl, r23⟩
          · exact Or.inl (Nat.lt_trans h12 h23)
          · exact Or.inl h12
        · rcases h23 with h23 | ⟨rfl, r23⟩
          · exact Or.inl h23
          · exact Or.inr ⟨rfl, ih o1 bs o2 cs o3 r12 r23⟩

/-- C5: for every buffer and definition list, `parse_mrdf` never raises (it
is total by construction), returns exactly the instances of the definitions
whose decode succeeds (a permutation of the decode-in-table-order list, with
bounds failures silently omitted), and the result is pairwise ordered
ascending by `(section, offset)` — section by code points, offset
numerically.  Determinism is inherent: the embedding is a pure function of
`(blob, defs)`. -/
theorem instLe_trans (a b c : MrdfFieldInstance) :
    instLe a b = true → instLe b c = true → instLe a c = true :=
  fun hab hbc => tupLe_trans _ _ _ _ _ _ hab hbc

theorem instLe_total (a b : MrdfFieldInstance) : (instLe a b || instLe b a) = true :=
  tupLe_total _ _ _ _

theorem parse_mrdf_spec (blob : List Nat) (defs : List MrdfFieldDef) :
    (parse_mrdf blob defs).Pairwise (fun i j => instLe i j = true) ∧
    (parse_mrdf blob defs).Perm (parse_decoded blob defs) := by
  constructor
  · exact List.sorted_mergeSort instLe_trans instLe_total (parse_decoded blob defs)
  · exact List.mergeSort_perm (parse_decoded blob defs) instLe

/-- C10: `get_profile_by_key` always returns a registered profile; it
returns the profile whose key matches when one exists, and the first
registered profile (stats) for any unknown key. -/
theorem get_profile_by_key_spec (key : String) :
    get_profile_by_key key ∈ PROFILES ∧
    ((∃ p ∈ PROFILES, p.key = key) → (get_profile_by_key key).key = key) ∧
    ((¬ ∃ p ∈ PROFILES, p.key = key) →
      get_profile_by_key key = ⟨"stats", "Statistics MRDF", STATS_MRDF_DEFS⟩) := by
  rcases hf : PROFILES.find? (fun p => p.key == key) with _ | p
  · have hnone := List.find?_eq_none.mp hf
    have hval : get_profile_by_key key = ⟨"stats", "Statistics MRDF", STATS_MRDF_DEFS⟩ := by
      unfold get_profile_by_key
      rw [hf]
    rw [hval]
    refine ⟨by simp [PROFILES], ?_, fun _ => rfl⟩
    rintro ⟨p, hp, hkey⟩
    exact absurd (by simp [hkey]) (hnone p hp)
  · have hval : get_profile_by_key key = p := by
      unfold get_profile_by_key
      rw [hf]
    have hmem := List.mem_of_find?_eq_some hf
    have hkey : (p.key == key) = true := List.find?_some (p := fun q : MrdfProfile => q.key == key) hf
    rw [hval]
    exact ⟨hmem, fun _ => by simpa using hkey,
      fun hne => absurd ⟨p, hmem, by simpa using hkey⟩ hne⟩

/-- C10 witness: the known key "physics" resolves to a profile with that
key, and an unknown key falls back to the stats profile. -/
theorem get_profile_by_key_witness :
    (get_profile_by_key "physics").key = "physics" ∧
    get_profile_by_key "nonsense" = ⟨"stats", "Statistics MRDF", STATS_MRDF_DEFS⟩ :=
  ⟨(get_profile_by_key_spec "physics").2.1 (by decide),
   (get_profile_by_key_spec "nonsense").2.2 (by decide)⟩

/-- C6: `detect_profile` applies its rules in order — path hint, then the
four-float32 physics heuristic, then fall-through to stats (the wheelbase
rule and the default both return the stats profile) — it is total for every
path string and buffer, a too-short buffer makes each heuristic a non-match,
and on the spec's example buffer (600.0 / 1200.0 / 1.0 / 1.0 at
0x30..0x3C, no path hint) it returns the physics profile. -/
theorem detect_profile_spec (sep path : String) (blob : List Nat) :
    (pathHint sep path = true → detect_profile sep path blob = get_profile_by_key "physics") ∧
    (pathHint sep path = false → physicsHeuristic blob = true →
      detect_profile sep path blob = get_profile_by_key "physics") ∧
    (pathHint sep path = false → physicsHeuristic blob = false →
      detect_profile sep path blob = get_profile_by_key "stats") ∧
    (blob.length < 0x40 → physicsHeuristic blob = false) ∧
    (blob.length < 0x88 → wheelbaseHeuristic blob = false) ∧
    detect_profile "/" "" brakeGlowExampleBuf = get_profile_by_key "physics" := by
  refine ⟨?_, ?_, ?_, ?_, ?_, ?_⟩
  · intro h
    simp [detect_profile, h]
  · intro h1 h2
    simp [detect_profile, h1, h2]
  · intro h1 h2
    unfold detect_profile
    rw [h1, h2]
    simp
  · intro h
    have h3C : unpack_f32_from blob 0x3C = none := by
      unfold unpack_f32_from
      rw [if_neg (by omega)]
    unfold physicsHeuristic
    split
    · rfl
    · split
      · rfl
      · split
        · rfl
        · split
          · rfl
          · rename_i heq
            rw [h3C] at heq
            exact absurd heq (by simp)
  · intro h
    have h84 : unpack_f32_from blob 0x84 = none := by
      unfold unpack_f32_from
      rw [if_neg (by omega)]
    unfold wheelbaseHeuristic
    rw [h84]
  · decide

/-- C6 witness: the path-hint rule fires on a concrete physics path, and the
heuristic rule fires on the example buffer. -/
theorem detect_profile_witness :
    detect_profile "/" "D:/mods/PhysicsTweaker.mrdf" [] = get_profile_by_key "physics" ∧
    detect_profile "/" "" brakeGlowExampleBuf = get_profile_by_key "physics" :=
  ⟨(detect_profile_spec "/" "D:/mods/PhysicsTweaker.mrdf" []).1 (by decide),
   (detect_profile_spec "/" "" brakeGlowExampleBuf).2.2.2.2.2⟩

theorem edContains_edErase (m : List (Nat × PyVal)) (k : Nat) :
    edContains (edErase m k) k = false := by
  induction m with
  | nil => rfl
  | cons a m ih =>
    by_cases h : a.1 = k
    · simp [edErase, edContains, h]
    · simp only [edErase, List.filter_cons]
      have hb : (a.1 != k) = true := by simp [h]
      rw [hb]
      simp only [edContains, List.any_cons, Bool.or_eq_true, beq_iff_eq]
      simp only [edContains] at ih
      simp [h, ih]

theorem find?_map_update (m : List (Nat × PyVal)) (k : Nat) (v : PyVal) :
    (m.map fun kv => if kv.1 == k then (k, v) else kv).find? (fun kv => kv.1 == k) =
      ((m.find? fun kv => kv.1 == k).map fun _ => (k, v)) := by
  induction m with
  | nil => rfl
  | cons a m ih =>
    simp only [List.map_cons, List.find?_cons]
    by_cases h : a.1 = k
    · simp [h]
    · have h2 : (a.1 == k) = false := by simp [h]
      simp only [h2, Bool.false_eq_true, if_false]
      exact ih

theorem edLookup_edInsert (m : List (Nat × PyVal)) (k : Nat) (v : PyVal) :
    edLookup (edInsert m k v) k = some v := by
  unfold edInsert
  by_cases hc : edContains m k
  · rw [if_pos hc, edLookup, find?_map_update]
    have hsome : (m.find? fun kv => kv.1 == k).isSome := by
      rw [List.find?_isSome]
      simpa [edContains, List.any_eq_true] using hc
    rcases Option.isSome_iff_exists.mp hsome with ⟨a, ha⟩
    rw [ha]
    rfl
  · rw [if_neg hc, edLookup, List.find?_append]
    have hnone : (m.find? fun kv => kv.1 == k) = none := by
      rw [List.find?_eq_none]
      intro kv hkv
      simp only [edContains] at hc
      exact fun hb => hc (List.any_eq_true.mpr ⟨kv, hkv, hb⟩)
    rw [hnone]
    simp [List.find?_cons]

/-- C3 counterexample: with no pending-edit entry for the field, the claim
says `revert_field` still restores the bytes, but the code returns early:
the state is returned unchanged and the working buffer still differs from
the original snapshot on the field's byte range. -/
theorem revert_field_counterexample :
    revert_field revertNoEntryState revertFieldInst = revertNoEntryState ∧
    (revert_field revertNoEntryState revertFieldInst).working_blob.take 1 ≠
      revertNoEntryState.original_blob.take 1 := by
  refine ⟨by decide, by decide⟩

/-- C3 (amended): `revert_field` restores exactly `width(kind)` bytes at the
definition's offset from the original snapshot, leaves every other byte and
the buffer length unchanged, and removes the pending-edit entry — but only
when the offset has a pending-edit entry.  When it has none, the method
returns early and performs no byte restore; the operation is idempotent
because a second call finds no entry. -/
theorem revert_field_spec (st : AppState) (inst : MrdfFieldInstance)
    (hlen : st.working_blob.length = st.original_blob.length)
    (hb : inst.definition.offset + fmtWidth inst.definition.scalar ≤ st.original_blob.length) :
    (edContains st.edits inst.definition.offset = false → revert_field st inst = st) ∧
    (edContains st.edits inst.definition.offset = true →
      (revert_field st inst).working_blob.length = st.working_blob.length ∧
      ((revert_field st inst).working_blob.drop inst.definition.offset).take
          (fmtWidth inst.definition.scalar) =
        (st.original_blob.drop inst.definition.offset).take (fmtWidth inst.definition.scalar) ∧
      (revert_field st inst).working_blob.take inst.definition.offset =
        st.working_blob.take inst.definition.offset ∧
      (revert_field st inst).working_blob.drop
          (inst.definition.offset + fmtWidth inst.definition.scalar) =
        st.working_blob.drop (inst.definition.offset + fmtWidth inst.definition.scalar) ∧
      (revert_field st inst).edits = edErase st.edits inst.definition.offset ∧
      edContains (revert_field st inst).edits inst.definition.offset = false ∧
      revert_field (revert_field st inst) inst = revert_field st inst) := by
  constructor
  · intro h
    simp [revert_field, h]
  · intro h
    have hrv : revert_field st inst =
        { st with
          working_blob := setSlice st.working_blob inst.definition.offset
            (fmtWidth inst.definition.scalar)
            ((st.original_blob.drop inst.definition.offset).take
              (fmtWidth inst.definition.scalar)),
          edits := edErase st.edits inst.definition.offset } := by
      simp [revert_field, h]
    have hxs : ((st.original_blob.drop inst.definition.offset).take
        (fmtWidth inst.definition.scalar)).length = fmtWidth inst.definition.scalar := by
      simp [List.length_take, List.length_drop]
      omega
    have hle : inst.definition.offset + fmtWidth inst.definition.scalar ≤
        st.working_blob.length := by omega
    rw [hrv]
    refine ⟨setSlice_length _ _ _ _ hle hxs, setSlice_window _ _ _ _ hle hxs,
      setSlice_take _ _ _ _ hle, setSlice_drop _ _ _ _ hle hxs, rfl, ?_, ?_⟩
    · exact edContains_edErase st.edits inst.definition.offset
    · simp [revert_field, edContains_edErase st.edits inst.definition.offset]

/-- C3 witness: with a pending edit at offset 0, reverting the selected
byte-wide field restores the original byte. -/
theorem revert_field_witness :
    edContains revertWithEntryState.edits revertFieldInst.definition.offset = true ∧
    ((revert_field revertWithEntryState revertFieldInst).working_blob.drop
        revertFieldInst.definition.offset).take (fmtWidth revertFieldInst.definition.scalar) =
      (revertWithEntryState.original_blob.drop revertFieldInst.definition.offset).take
        (fmtWidth revertFieldInst.definition.scalar) :=
  ⟨by decide,
   ((revert_field_spec revertWithEntryState revertFieldInst (by decide) (by decide)).2
     (by decide)).2.1⟩

/-- C7: with a selected target range of length `n`, a parsed byte sequence
whose length differs from `n` always aborts with the length-mismatch error
and the state (working buffer, ledger, everything) is returned unchanged;
with the exact length it replaces `working[start : start + n]` verbatim and
changes nothing else — in particular the pending-edits ledger is untouched
on every path. -/
theorem apply_hex_overwrite_spec (st : AppState) (s : String) (start n : Nat) (bs : List Nat)
    (hsel1 : st.hexSelStart = some start) (hsel2 : st.hexSelLen = some n)
    (hparse : parse_hex_bytes s = .ok bs) :
    (bs.length ≠ n → apply_hex_overwrite st s = (st, .lengthMismatch)) ∧
    (bs.length = n → start + n ≤ st.working_blob.length →
      apply_hex_overwrite st s =
        ({ st with working_blob :=
            st.working_blob.take start ++ bs ++ st.working_blob.drop (start + n) },
         .applied)) := by
  unfold apply_hex_overwrite
  rw [hsel1, hsel2, hparse]
  constructor
  · intro hne
    simp only
    rw [if_pos hne]
  · intro heq hle
    simp only
    rw [if_neg (by omega)]
    rw [setSlice_eq_of_le _ _ _ _ hle]

/-- C7 witness: one byte against a 2-byte target mismatches and leaves the
state untouched; two bytes overwrite exactly the selected range. -/
theorem apply_hex_overwrite_witness :
    apply_hex_overwrite hexOvwState "DE" = (hexOvwState, .lengthMismatch) ∧
    apply_hex_overwrite hexOvwState "DE AD" =
      ({ hexOvwState with working_blob := [1, 222, 173, 4] }, .applied) :=
  ⟨(apply_hex_overwrite_spec hexOvwState "DE" 1 2 [222] rfl rfl (by decide)).1 (by decide),
   (apply_hex_overwrite_spec hexOvwState "DE AD" 1 2 [222, 173] rfl rfl (by decide)).2
     (by decide) (by decide)⟩

theorem tokensToBytes_ok : ∀ (ps : List (List Char)) (bs : List Nat),
    tokensToBytes ps = some bs → bs.length = ps.length ∧ ∀ b ∈ bs, b < 256 := by
  intro ps
  induction ps with
  | nil =>
    intro bs h
    simp only [tokensToBytes, Option.some.injEq] at h
    subst h
    exact ⟨rfl, by simp⟩
  | cons p ps ih =>
    intro bs h
    unfold tokensToBytes at h
    rcases hz : pyInt16 p with _ | z <;> rw [hz] at h <;> simp only at h
    · exact absurd h (by simp)
    · split at h
      · rename_i hcond
        rcases hrec : tokensToBytes ps with _ | bsTail <;> rw [hrec] at h
        · exact absurd h (by simp)
        · simp only [Option.map_some', Option.some.injEq] at h
          subst h
          obtain ⟨ih1, ih2⟩ := ih bsTail hrec
          refine ⟨by simp [ih1], ?_⟩
          intro b hb
          rcases List.mem_cons.mp hb with rfl | hb'
          · omega
          · exact ih2 b hb'
      · exact absurd h (by simp)

/-- C9 counterexample: the hex-overwrite literal parser is claimed to accept
exactly two-digit hexadecimal byte tokens, but the single-digit token "F"
is accepted (with value 15), as is the `0x`-prefixed four-character token
"0x1F" — `int(p, 16)` is more liberal than the claimed token shape. -/
theorem parse_hex_bytes_counterexample :
    parse_hex_bytes "F" = .ok [15] ∧ parse_hex_bytes "0x1F" = .ok [31] := by
  refine ⟨by decide, by decide⟩

/-- C9 (amended): `_parse_hex_bytes` accepts exactly the strings whose
comma/whitespace-separated tokens each parse with Python `int(p, 16)`
(optional sign, optional `0x` prefix, one or more hex digits — two-digit
bytes are the intended special case) to a value in `[0, 256)`; every
produced byte is `< 256` and the byte count equals the token count; and an
overwrite is applied only when that byte count equals the selected target
range's length exactly. -/
theorem parse_hex_bytes_spec (s : String) (st : AppState) (n : Nat) :
    (∀ bs, parse_hex_bytes s = .ok bs →
      bs.length =
        (pySplitWs ((pyStrip s.toList).map fun c => if c == ',' then ' ' else c)).length ∧
      ∀ b ∈ bs, b < 256) ∧
    (st.hexSelLen = some n → (apply_hex_overwrite st s).2 = .applied →
      ∃ bs, parse_hex_bytes s = .ok bs ∧ bs.length = n) ∧
    parse_hex_bytes "DE AD BE EF" = .ok [0xDE, 0xAD, 0xBE, 0xEF] ∧
    parse_hex_bytes "XY" = .error () ∧
    parse_hex_bytes "1F0" = .error () := by
  refine ⟨?_, ?_, by decide, by decide, by decide⟩
  · intro bs h
    unfold parse_hex_bytes at h
    simp only at h
    split at h
    · rename_i ht
      simp only [Except.ok.injEq] at h
      subst h
      have ht' : pyStrip s.toList = [] := List.isEmpty_iff.mp ht
      rw [ht']
      exact ⟨rfl, by simp⟩
    · rcases hk : tokensToBytes
          (pySplitWs ((pyStrip s.toList).map fun c => if c == ',' then ' ' else c))
          with _ | bs' <;> rw [hk] at h
      · exact absurd h (by simp)
      · simp only [Except.ok.injEq] at h
        subst h
        exact tokensToBytes_ok _ _ hk
  · intro hn happ
    unfold apply_hex_overwrite at happ
    rcases hs : st.hexSelStart with _ | start <;> rw [hs, hn] at happ
    · exact absurd happ (by simp)
    · rcases hp : parse_hex_bytes s with e | bs <;> rw [hp] at happ
      · exact absurd happ (by simp)
      · simp only at happ
        split at happ
        · exact absurd happ (by simp)
        · rename_i hlen
          exact ⟨bs, rfl, by omega⟩

/-- C9 witness: the canonical four-token literal "DE AD BE EF" produces
four bytes, all below 256, matching the token count; and an applied
overwrite implies the exact count. -/
theorem parse_hex_bytes_witness :
    (∀ b ∈ [0xDE, 0xAD, 0xBE, 0xEF], b < 256) ∧
    (∃ bs, parse_hex_bytes "DE AD" = .ok bs ∧ bs.length = 2) :=
  ⟨((parse_hex_bytes_spec "DE AD BE EF" hexOvwState 0).1 [0xDE, 0xAD, 0xBE, 0xEF]
      (by decide)).2,
   (parse_hex_bytes_spec "DE AD" hexOvwState 2).2.1 rfl (by decide)⟩

/-- C8: a literal that cannot be converted to the field's scalar kind makes
`apply_edit` fail with the parse error and leaves the working buffer and
the pending-edits ledger unchanged; a parsed value whose encode fails also
leaves the state unchanged (no partial application); a successful encode
installs the encoded buffer and records `offset -> newValue` in the
pending-edits ledger. -/
theorem apply_edit_spec (st : AppState) (inst : MrdfFieldInstance)
    (bitmaskVars : List (Nat × Bool)) (enumChoice editorText : String) :
    (compute_new_val inst.definition bitmaskVars enumChoice editorText = none →
      apply_edit st inst bitmaskVars enumChoice editorText = (st, .invalidEdit)) ∧
    (∀ v, compute_new_val inst.definition bitmaskVars enumChoice editorText = some v →
      (∀ e, write_scalar st.working_blob (inst.definition.offset : ℤ)
          inst.definition.scalar v = .error e →
        apply_edit st inst bitmaskVars enumChoice editorText = (st, .writeFailed e)) ∧
      (∀ out packed,
        write_scalar st.working_blob (inst.definition.offset : ℤ)
          inst.definition.scalar v = .ok (out, packed) →
        apply_edit st inst bitmaskVars enumChoice editorText =
          ({ st with
              working_blob := out,
              edits := edInsert st.edits inst.definition.offset v }, .applied) ∧
        edLookup (edInsert st.edits inst.definition.offset v)
          inst.definition.offset = some v)) := by
  constructor
  · intro hv
    unfold apply_edit
    rw [hv]
  · intro v hv
    constructor
    · intro e hw
      unfold apply_edit
      simp only [hv, hw]
    · intro out packed hw
      constructor
      · unfold apply_edit
        simp only [hv, hw]
      · exact edLookup_edInsert st.edits inst.definition.offset v

/-- C8 witness: the non-numeric literal "abc" on a float field aborts with
the parse error and no mutation; the literal "0x0A" on a `uint32` field
encodes the bytes `0A 00 00 00` at offset 4 and records `4 -> 10`. -/
theorem apply_edit_witness :
    apply_edit editState editInstF32 [] "" "abc" = (editState, .invalidEdit) ∧
    apply_edit editState editInstU32 [] "" "0x0A" =
      ({ editState with
          working_blob := [0, 0, 0, 0, 10, 0, 0, 0],
          edits := [(4, .int 10)] }, .applied) :=
  ⟨(apply_edit_spec editState editInstF32 [] "" "abc").1 (by decide),
   (((apply_edit_spec editState editInstU32 [] "" "0x0A").2 (.int 10) (by decide)).2
     [0, 0, 0, 0, 10, 0, 0, 0] [10, 0, 0, 0] (by decide)).1⟩

end Mrdf

